import Mathlib

/-!
# Field resolution of the vendored go-logging package

A shallow embedding of `logging/fields.go`: the log record, the two registry
maps `fields` and `runtimeFields`, the two record population steps
`genRuntime` and `genNonRuntime`, and the sixteen resolver methods of `Logger`.

Modelling conventions.

* A Go `string` is a Lean `String`. The only byte the code searches for is the
  ASCII dot (and, inside `path.Base`, the ASCII slash); in UTF-8 these bytes
  never occur inside a multi-byte sequence, so splitting on the character
  agrees with splitting on the byte.
* `uint64` is a `Nat` reduced modulo `2 ^ 64` where the code does arithmetic;
  `int`, `int32`, `int64` are `Int`, wrapped explicitly where the code converts.
* A Go map literal is an association list with distinct keys, read with
  `List.lookup`; a failed lookup is `none`.
* A run-time panic (index out of range) is `none` in an `Option` result.
* What the code asks of the operating system or the Go runtime (the stack
  frame, the clock, the process id, the executable path) is an explicit
  argument of the embedded function.
* A resolver returns, besides its value, the record and the logger after the
  call, since it receives both by pointer.
* Concurrent calls of `genNonRuntime` are step machines, one per caller, run
  under an arbitrary schedule; the atomic add is one step.
-/

namespace Logging

/-! ## Values and time -/

/-- Dynamic values returned by resolvers: the Go `interface{}` results that the
resolver methods of `fields.go` produce, tagged by their static Go type. -/
inductive Value where
  | str (s : String)
  | int (i : Int)
  | int32 (i : Int)
  | int64 (i : Int)
  | uint64 (n : Nat)
  deriving DecidableEq, Repr

/-- Two's complement wrap of an integer to 64 bits (Go `int64` arithmetic). -/
def wrap64 (x : Int) : Int := (x + 2 ^ 63) % 2 ^ 64 - 2 ^ 63

/-- Two's complement wrap of an integer to 32 bits (Go conversion `int32(x)`). -/
def wrap32 (x : Int) : Int := (x + 2 ^ 31) % 2 ^ 32 - 2 ^ 31

/-- Clamp of an integer to the `int64` range, the overflow rule of
`time.Time.Sub`. -/
def sat64 (x : Int) : Int :=
  if x < -(2 ^ 63) then -(2 ^ 63) else if 2 ^ 63 - 1 < x then 2 ^ 63 - 1 else x

/-- Go `time.Time`, as far as `fields.go` reads it: seconds since the Unix
epoch, the nanosecond within the second, and the monotonic clock reading when
the value carries one. -/
structure Time where
  sec : Int
  nsec : Nat
  mono : Option Int
  deriving DecidableEq, Repr

/-- The zero `time.Time` (January 1, year 1, 00:00:00 UTC, no monotonic
reading). -/
def Time.zero : Time := ⟨-62135596800, 0, none⟩

/-- Go `Time.UnixNano`: nanoseconds since the Unix epoch in `int64`
arithmetic. -/
def Time.UnixNano (t : Time) : Int := wrap64 (t.sec * 1000000000 + t.nsec)

/-- Go `Time.Nanosecond`: the nanosecond offset within the second. -/
def Time.Nanosecond (t : Time) : Int := t.nsec

/-- Go `Time.Sub`, in nanoseconds: the difference of the monotonic readings
when both values carry one, else of the wall clock readings, clamped to the
range of `time.Duration`. -/
def Time.Sub (t u : Time) : Int :=
  match t.mono, u.mono with
  | some a, some b => sat64 (a - b)
  | _, _ => sat64 ((t.sec - u.sec) * 1000000000 + ((t.nsec : Int) - u.nsec))

/-! ## The record and the logger -/

/-- The struct for each log record (`type record struct`). -/
structure record where
  level : Int
  seqid : Nat
  pathname : String
  filename : String
  module : String
  lineno : Int
  funcname : String
  thread : Int
  process : Int
  message : String
  time : Time
  deriving DecidableEq, Repr

/-- The Go zero value of `record`: what a freshly allocated record holds. -/
def record.zero : record :=
  { level := 0, seqid := 0, pathname := "", filename := "", module := "",
    lineno := 0, funcname := "", thread := 0, process := 0, message := "",
    time := Time.zero }

/-- Modelled from the spec: the `Logger` struct is declared outside
`fields.go`; these are the four fields the spec lists and `fields.go` reads or
writes: `name`, `startTime`, the shared `seqid` counter (a `uint64`) and
`timeFormat`. -/
structure Logger where
  name : String
  seqid : Nat
  startTime : Time
  timeFormat : String
  deriving DecidableEq, Repr

/-- What the resolvers read from outside the program: the pair that
`osext.Executable()` yields (the path, and the error when the lookup failed),
the result of `os.Getpid()`, the rendering function `time.Time.Format`, and the
`levelNames` table (a Go map from level to name), which is declared outside
`fields.go`. -/
structure Env where
  executable : String × Option String
  pid : Int
  formatTime : Time → String → String
  levelNames : Int → String

/-! ## Library functions used by the code -/

/-- Split of a sequence at every occurrence of a one-element separator, with
the piece read so far kept reversed in `acc`: the loop of Go `strings.Split`
for a separator of length one. -/
def splitAux {α : Type} [DecidableEq α] (sep : α) : List α → List α → List (List α)
  | [], acc => [acc.reverse]
  | c :: cs, acc =>
    if c = sep then acc.reverse :: splitAux sep cs [] else splitAux sep cs (c :: acc)

/-- Go `strings.Split(s, sep)` for a separator of one character. -/
def stringsSplit (s : String) (sep : Char) : List String :=
  (splitAux sep s.data []).map String.mk

/-- Go slice indexing `xs[i]` with an `int` index: `none` is the index out of
range panic. -/
def goIndex {α : Type} (xs : List α) (i : Int) : Option α :=
  if i < 0 then none else xs[i.toNat]?

/-- Go `path.Base`: the last element of a slash-separated path, after removal
of trailing slashes; `"."` for the empty path and `"/"` for a path of slashes
only. -/
def pathBase (path : String) : String :=
  if path = "" then "." else
    let p := (path.data.reverse.dropWhile (fun c => c = '/')).reverse
    let q := (p.reverse.takeWhile (fun c => c ≠ '/')).reverse
    if q = [] then "/" else String.mk q

/-! ## fields.go -/

/-- If it fails to get some fields with string type, these fields are set to
`errString` value. -/
def errString : String := "???"

/-- The function `getShortFuncName` generates the short function name: the last
element of the split of `fname` at dots. -/
def getShortFuncName (fname : String) : Option String :=
  let fns := stringsSplit fname '.'
  goIndex fns ((fns.length : Int) - 1)

/-- Result of `runtime.Caller(calldepth)`: program counter, file, line and the
success flag. -/
structure CallerInfo where
  pc : Nat
  file : String
  line : Int
  ok : Bool
  deriving DecidableEq, Repr

/-- The method `genRuntime` generates the runtime information, including
pathname, function name, filename, line number. `caller` is what
`runtime.Caller(4)` returned and `funcForPC` is `runtime.FuncForPC(pc).Name()`.
-/
def record.genRuntime (r : record) (caller : CallerInfo) (funcForPC : Nat → String) :
    Option record :=
  if caller.ok then
    let fname := funcForPC caller.pc
    let r1 := { r with pathname := caller.file }
    match getShortFuncName fname with
    | none => none
    | some short =>
      let r2 := { r1 with funcname := short }
      let r3 := { r2 with filename := pathBase caller.file }
      some { r3 with lineno := caller.line }
  else
    let r1 := { r with pathname := errString }
    let r2 := { r1 with funcname := errString }
    let r3 := { r2 with filename := errString }
    some { r3 with lineno := -1 }

/-- Go `atomic.AddUint64(addr, delta)`: the new counter value, which is both
stored and returned. -/
def atomicAddUint64 (old delta : Nat) : Nat := (old + delta) % 2 ^ 64

/-- The method `genNonRuntime` generates the non-runtime information, including
sequential id and time. `now` is what `time.Now()` returned. The result is the
record and the logger after the call. -/
def record.genNonRuntime (r : record) (logger : Logger) (now : Time) : record × Logger :=
  let n := atomicAddUint64 logger.seqid 1
  let logger1 := { logger with seqid := n }
  let r1 := { r with seqid := n }
  ({ r1 with time := now }, logger1)

/-- A resolver method `func(*Logger, *record) interface{}`: from the
environment, the logger and the record to the returned value, the record after
the call and the logger after the call. -/
abbrev Resolver := Env → Logger → record → Value × record × Logger

/-- Logger name. -/
def Logger.lname : Resolver := fun _ logger r => (Value.str logger.name, r, logger)

/-- Next sequence number. -/
def Logger.nextSeqid : Resolver := fun _ logger r => (Value.uint64 r.seqid, r, logger)

/-- Log level number. -/
def Logger.levelno : Resolver := fun _ logger r => (Value.int32 (wrap32 r.level), r, logger)

/-- Log level name. -/
def Logger.levelname : Resolver := fun env logger r => (Value.str (env.levelNames r.level), r, logger)

/-- File name of calling logger, with whole path. -/
def Logger.pathname : Resolver := fun _ logger r => (Value.str r.pathname, r, logger)

/-- File name of calling logger. -/
def Logger.filename : Resolver := fun _ logger r => (Value.str r.filename, r, logger)

/-- Module name: the base name of the executable path; the error of the lookup
is dropped. -/
def Logger.module : Resolver :=
  fun env logger r =>
    let module := env.executable.1
    (Value.str (pathBase module), r, logger)

/-- Line number. -/
def Logger.lineno : Resolver := fun _ logger r => (Value.int r.lineno, r, logger)

/-- Function name. -/
def Logger.funcname : Resolver := fun _ logger r => (Value.str r.funcname, r, logger)

/-- Timestamp of starting time. -/
def Logger.created : Resolver := fun _ logger r => (Value.int64 logger.startTime.UnixNano, r, logger)

/-- Record time rendered with the time format of the logger. -/
def Logger.time : Resolver :=
  fun env logger r => (Value.str (env.formatTime r.time logger.timeFormat), r, logger)

/-- Nanosecond of starting time. -/
def Logger.nsecs : Resolver := fun _ logger r => (Value.int logger.startTime.Nanosecond, r, logger)

/-- Nanosecond timestamp. -/
def Logger.timestamp : Resolver := fun _ logger r => (Value.int64 r.time.UnixNano, r, logger)

/-- Nanoseconds since logger created. -/
def Logger.rtime : Resolver := fun _ logger r => (Value.int64 (r.time.Sub logger.startTime), r, logger)

/-- Process ID: stored in the record, then returned. -/
def Logger.process : Resolver :=
  fun env logger r =>
    let r1 := { r with process := env.pid }
    (Value.int r1.process, r1, logger)

/-- The log message. -/
def Logger.message : Resolver := fun _ logger r => (Value.str r.message, r, logger)

/-- This variable maps fields in recordArgs to relevant function signatures. -/
def fields : List (String × Resolver) :=
  [ ("name", Logger.lname),
    ("seqid", Logger.nextSeqid),
    ("levelno", Logger.levelno),
    ("levelname", Logger.levelname),
    ("created", Logger.created),
    ("nsecs", Logger.nsecs),
    ("time", Logger.time),
    ("timestamp", Logger.timestamp),
    ("rtime", Logger.rtime),
    ("filename", Logger.filename),
    ("pathname", Logger.pathname),
    ("module", Logger.module),
    ("lineno", Logger.lineno),
    ("funcname", Logger.funcname),
    ("process", Logger.process),
    ("message", Logger.message) ]

/-- The map `runtimeFields`: which tokens need the runtime (stack) capture. -/
def runtimeFields : List (String × Bool) :=
  [ ("name", false),
    ("seqid", false),
    ("levelno", false),
    ("levelname", false),
    ("created", false),
    ("nsecs", false),
    ("time", false),
    ("timestamp", false),
    ("rtime", false),
    ("filename", true),
    ("pathname", true),
    ("module", false),
    ("lineno", true),
    ("funcname", true),
    ("thread", true),
    ("process", false),
    ("message", false) ]

/-- The sixteen token names of the registry, in the order of the map literal. -/
def tokenNames : List String :=
  [ "name", "seqid", "levelno", "levelname", "created", "nsecs", "time", "timestamp",
    "rtime", "filename", "pathname", "module", "lineno", "funcname", "process", "message" ]

/-- The four caller-location tokens. -/
def callerTokens : List String := [ "filename", "pathname", "lineno", "funcname" ]

/-- Go map indexing `runtimeFields[s]`: the stored flag, or `false` (the zero
value) for a missing key. -/
def runtimeFieldsAt (s : String) : Bool := (runtimeFields.lookup s).getD false

/-- Records populated one after another on the same logger: each record of the
list, paired with the clock reading of its call, goes through `genNonRuntime`
with the logger that the previous call left behind. The result is the
populated records, in creation order, and the logger after the last call. -/
def populate (logger : Logger) : List (record × Time) → List record × Logger
  | [] => ([], logger)
  | (r, now) :: rest =>
    let step := r.genNonRuntime logger now
    let tail := populate step.2 rest
    (step.1 :: tail.1, tail.2)

/-- The sequence ids that `populate` stores, in creation order. -/
def seqids (logger : Logger) (inputs : List (record × Time)) : List Nat :=
  (populate logger inputs).1.map record.seqid

/-- Repeated requests of one resolver on the same record: `n` calls one after
another, each on the record and the logger that the previous call left behind.
The result is the returned values in call order, and the record and the logger
after the last call. -/
def callTimes (f : Resolver) (env : Env) : Nat → Logger → record → List Value × record × Logger
  | 0, logger, r => ([], r, logger)
  | n + 1, logger, r =>
    let out := f env logger r
    let rest := callTimes f env n out.2.2 out.2.1
    (out.1 :: rest.1, rest.2)

/-- A Go identifier, as the words "final identifier" of the specification are
read: a letter or underscore followed by letters, digits and underscores
(ASCII letters and digits). -/
def isIdentifier (s : String) : Bool :=
  match s.data with
  | [] => false
  | c :: cs => (c.isAlpha || c == '_') && cs.all (fun d => d.isAlphanum || d == '_')

/-! ### Concurrent callers

One call of `genNonRuntime` is three steps of its caller: the atomic add on the
shared counter, whose result the caller holds; the store of that result into
the seqid of its own record; the store of the clock reading into the time of
its own record. Only the first step touches state that other callers see. -/

/-- A caller inside `genNonRuntime`: `pc` counts the steps it has taken (3
means the call has returned), `tmp` is the result of its atomic add once taken,
`r` is its own record and `now` the clock reading that its `time.Now()`
yields. -/
structure Caller where
  pc : Nat
  tmp : Nat
  r : record
  now : Time
  deriving DecidableEq, Repr

/-- One step of one caller on the shared logger: the next of the three steps of
`genNonRuntime`, or nothing when the call has returned. -/
def stepCaller (logger : Logger) (c : Caller) : Logger × Caller :=
  if c.pc = 0 then
    ({ logger with seqid := atomicAddUint64 logger.seqid 1 },
     { c with pc := 1, tmp := atomicAddUint64 logger.seqid 1 })
  else if c.pc = 1 then
    (logger, { c with pc := 2, r := { c.r with seqid := c.tmp } })
  else if c.pc = 2 then
    (logger, { c with pc := 3, r := { c.r with time := c.now } })
  else
    (logger, c)

/-- The callers before any step: one per record, each paired with the clock
reading of its call. -/
def startCallers (inputs : List (record × Time)) : List Caller :=
  inputs.map (fun p => Caller.mk 0 0 p.1 p.2)

/-- The scheduler lets caller `i` take one step; an index that names no caller
changes nothing. -/
def stepAt (s : Logger × List Caller) (i : Nat) : Logger × List Caller :=
  match s.2[i]? with
  | none => s
  | some c => ((stepCaller s.1 c).1, s.2.set i (stepCaller s.1 c).2)

/-- A run under a schedule: the list of the callers that step, in order. -/
def runSchedule (s : Logger × List Caller) (sched : List Nat) : Logger × List Caller :=
  sched.foldl stepAt s

/-- The invariant of a run, for counter value `k`: `k` callers have taken
their atomic add; the results they hold lie in 1..k and are pairwise distinct;
a caller past its second step has stored its result as the seqid of its
record; no caller is past its third step. -/
def TicketInv (k : Nat) (cs : List Caller) : Prop :=
  cs.countP (fun c => decide (1 ≤ c.pc)) = k ∧
  (∀ c ∈ cs, 1 ≤ c.pc → 1 ≤ c.tmp ∧ c.tmp ≤ k) ∧
  cs.Pairwise (fun a b => 1 ≤ a.pc → 1 ≤ b.pc → a.tmp ≠ b.tmp) ∧
  (∀ c ∈ cs, 2 ≤ c.pc → c.r.seqid = c.tmp) ∧
  (∀ c ∈ cs, c.pc ≤ 3)

/-- A sample environment: the executable is `/usr/bin/nuagekubemon`, the
process id is 4242, times render as the empty string and no level has a name. -/
def sampleEnv : Env :=
  Env.mk ("/usr/bin/nuagekubemon", none) 4242 (fun _ _ => "") (fun _ => "")

/-- A sample logger named `log`, counter 0, started at Unix second
1700000000. -/
def sampleLogger : Logger := Logger.mk "log" 0 (Time.mk 1700000000 0 none) ""

/-- Three records with the messages `a`, `b`, `c`, each paired with a clock
reading. -/
def sampleInputs : List (record × Time) :=
  [ ({ record.zero with message := "a" }, Time.mk 1700000001 0 none),
    ({ record.zero with message := "b" }, Time.mk 1700000002 0 none),
    ({ record.zero with message := "c" }, Time.mk 1700000003 0 none) ]

/-- An interleaving of three callers: caller 2 takes its atomic add first, then
caller 0, then caller 1, and their stores are interleaved. -/
def sampleSchedule : List Nat := [2, 0, 2, 1, 0, 1, 2, 1, 0]

/-! ## Registry -/

/-- A lookup in an association list succeeds exactly on the listed keys. -/
theorem lookup_isSome_iff_mem_keys {β : Type} (s : String) (l : List (String × β)) :
    (l.lookup s).isSome = true ↔ s ∈ l.map Prod.fst := by
  induction l with
  | nil => simp
  | cons p l ih =>
    obtain ⟨k, v⟩ := p
    by_cases h : s = k
    · subst h; simp [List.lookup]
    · have hb : (s == k) = false := by simpa using h
      simp [List.lookup, hb, ih, h]

/-- The keys of `fields` are the sixteen token names. -/
theorem fields_keys : fields.map Prod.fst = tokenNames := rfl

/-- C1: looking up a token name in `fields` finds a resolver if and only if
the name is one of the sixteen tokens name, seqid, levelno, levelname, created,
nsecs, time, timestamp, rtime, filename, pathname, module, lineno, funcname,
process, message; for every other string the lookup finds nothing. -/
theorem fields_lookup_iff (s : String) :
    ((fields.lookup s).isSome = true ↔
      s ∈ [ "name", "seqid", "levelno", "levelname", "created", "nsecs", "time",
            "timestamp", "rtime", "filename", "pathname", "module", "lineno",
            "funcname", "process", "message" ]) ∧
    (s ∉ [ "name", "seqid", "levelno", "levelname", "created", "nsecs", "time",
            "timestamp", "rtime", "filename", "pathname", "module", "lineno",
            "funcname", "process", "message" ] → fields.lookup s = none) := by
  have h := lookup_isSome_iff_mem_keys s fields
  rw [fields_keys] at h
  refine ⟨h, fun hs => ?_⟩
  cases hl : fields.lookup s with
  | none => rfl
  | some v =>
    exfalso
    apply hs
    apply h.mp
    simp [hl]

/-- C1 at concrete inputs: `thread` is none of the sixteen tokens and has no
resolver, while `message` has one. -/
theorem fields_lookup_iff_witness :
    "thread" ∉ [ "name", "seqid", "levelno", "levelname", "created", "nsecs", "time",
            "timestamp", "rtime", "filename", "pathname", "module", "lineno",
            "funcname", "process", "message" ] ∧
    fields.lookup "thread" = none ∧
    (fields.lookup "message").isSome = true :=
  ⟨by decide, (fields_lookup_iff "thread").2 (by decide),
   (fields_lookup_iff "message").1.mpr (by decide)⟩

/-- The lookup of a string outside the keys of an association list fails. -/
theorem lookup_eq_none_of_not_mem_keys {β : Type} (s : String) (l : List (String × β))
    (h : s ∉ l.map Prod.fst) : l.lookup s = none := by
  cases hl : l.lookup s with
  | none => rfl
  | some v =>
    exfalso
    apply h
    apply (lookup_isSome_iff_mem_keys s l).mp
    simp [hl]

/-- The keys of `runtimeFields` are the sixteen token names and `thread`. -/
theorem runtimeFields_keys :
    runtimeFields.map Prod.fst =
      [ "name", "seqid", "levelno", "levelname", "created", "nsecs", "time", "timestamp",
        "rtime", "filename", "pathname", "module", "lineno", "funcname", "thread",
        "process", "message" ] := rfl

/-- The two key sets are not identical: `thread` is a key of `runtimeFields` and
not a key of `fields`. -/
theorem key_sets_differ_at_thread :
    ¬ (∀ s : String, (fields.lookup s).isSome = true ↔ (runtimeFields.lookup s).isSome = true) := by
  intro h
  have h1 : (runtimeFields.lookup "thread").isSome = true := by decide
  have h2 := (lookup_isSome_iff_mem_keys "thread" fields).mp ((h "thread").mpr h1)
  rw [fields_keys] at h2
  revert h2
  decide

/-- C2: the code at the token `thread`. The claim asks for identical key sets;
`runtimeFields` classifies `thread` (as true) while `fields` has no resolver
for it, so the invariant is broken there, and there only: at every other
string the two maps agree on being a key. -/
theorem runtimeFields_keys_eq_fields_keys_or_thread :
    (∀ s : String, (runtimeFields.lookup s).isSome = true ↔
      ((fields.lookup s).isSome = true ∨ s = "thread")) ∧
    fields.lookup "thread" = none ∧
    runtimeFields.lookup "thread" = some true := by
  refine ⟨fun s => ?_, ?_, by decide⟩
  · rw [lookup_isSome_iff_mem_keys, lookup_isSome_iff_mem_keys, fields_keys, runtimeFields_keys]
    simp only [tokenNames, List.mem_cons, List.mem_singleton, List.not_mem_nil, or_false]
    tauto
  · apply lookup_eq_none_of_not_mem_keys
    rw [fields_keys]
    decide

/-- The runtime flag of each of the sixteen registered tokens. -/
theorem runtimeFields_lookup_of_mem (s : String) (h : s ∈ tokenNames) :
    (runtimeFields.lookup s = some true ↔ s ∈ callerTokens) ∧
    (runtimeFields.lookup s = some false ↔ s ∉ callerTokens) := by
  simp only [tokenNames, List.mem_cons, List.mem_singleton, List.not_mem_nil, or_false] at h
  rcases h with h | h | h | h | h | h | h | h | h | h | h | h | h | h | h | h <;>
    subst h <;> decide

/-- C3: for every token that has a resolver in `fields`, `runtimeFields` maps
it to true exactly when it is one of filename, pathname, lineno, funcname, and
to false for every other registered token; hence a list of registered tokens
contains a runtime-flagged token if and only if it contains one of those four
caller-location tokens. -/
theorem runtimeFields_true_iff_caller_token :
    (∀ s : String, (fields.lookup s).isSome = true →
      ((runtimeFields.lookup s = some true ↔
          s ∈ [ "filename", "pathname", "lineno", "funcname" ]) ∧
       (runtimeFields.lookup s = some false ↔
          s ∉ [ "filename", "pathname", "lineno", "funcname" ]))) ∧
    (∀ ts : List String, (∀ t ∈ ts, (fields.lookup t).isSome = true) →
      ((∃ t ∈ ts, runtimeFieldsAt t = true) ↔
        ∃ t ∈ ts, t ∈ [ "filename", "pathname", "lineno", "funcname" ])) := by
  have key : ∀ s : String, (fields.lookup s).isSome = true →
      ((runtimeFields.lookup s = some true ↔ s ∈ callerTokens) ∧
       (runtimeFields.lookup s = some false ↔ s ∉ callerTokens)) := by
    intro s hs
    apply runtimeFields_lookup_of_mem
    rw [← fields_keys]
    exact (lookup_isSome_iff_mem_keys s fields).mp hs
  refine ⟨key, fun ts hts => ?_⟩
  have flag : ∀ t ∈ ts, (runtimeFieldsAt t = true ↔ t ∈ callerTokens) := by
    intro t ht
    obtain ⟨h1, h2⟩ := key t (hts t ht)
    unfold runtimeFieldsAt
    constructor
    · intro h
      by_contra hn
      rw [h2.mpr hn] at h
      simp at h
    · intro h
      rw [h1.mpr h]
      rfl
  constructor
  · rintro ⟨t, ht, h⟩
    exact ⟨t, ht, (flag t ht).mp h⟩
  · rintro ⟨t, ht, h⟩
    exact ⟨t, ht, (flag t ht).mpr h⟩

/-- C3 at concrete inputs: `lineno` is registered and runtime-flagged, and the
request of `time`, `lineno`, `message` contains a runtime-flagged token. -/
theorem runtimeFields_true_iff_caller_token_witness :
    (fields.lookup "lineno").isSome = true ∧
    runtimeFields.lookup "lineno" = some true ∧
    (∃ t ∈ [ "time", "lineno", "message" ], runtimeFieldsAt t = true) :=
  ⟨by decide,
   ((runtimeFields_true_iff_caller_token.1 "lineno" (by decide)).1).mpr (by decide),
   (runtimeFields_true_iff_caller_token.2 [ "time", "lineno", "message" ]
      (by decide)).mpr ⟨"lineno", by decide, by decide⟩⟩

/-! ## Sequence ids -/

/-- C4: for every logger whose counter holds c and every record,
`genNonRuntime` sets the counter of the logger to c+1 modulo 2^64 and sets the
seqid of the record to that same post-increment value, never to the
pre-increment value c. -/
theorem genNonRuntime_seqid_post_increment (r : record) (logger : Logger) (now : Time) :
    (r.genNonRuntime logger now).2.seqid = (logger.seqid + 1) % 2 ^ 64 ∧
    (r.genNonRuntime logger now).1.seqid = (r.genNonRuntime logger now).2.seqid ∧
    (r.genNonRuntime logger now).1.seqid ≠ logger.seqid := by
  refine ⟨rfl, rfl, ?_⟩
  show (logger.seqid + 1) % 2 ^ 64 ≠ logger.seqid
  norm_num
  omega

/-- The sequence ids of `populate`, whatever the counter: the k-th record
(from 0) receives c + 1 + k modulo 2^64. -/
theorem seqids_eq_map (logger : Logger) (inputs : List (record × Time)) :
    seqids logger inputs =
      (List.range inputs.length).map (fun k => (logger.seqid + 1 + k) % 2 ^ 64) := by
  induction inputs generalizing logger with
  | nil => rfl
  | cons p rest ih =>
    obtain ⟨r, now⟩ := p
    have h := ih (r.genNonRuntime logger now).2
    simp only [seqids] at h ⊢
    simp only [populate, List.map_cons, List.length_cons, List.range_succ_eq_map,
      List.map_map, h]
    refine congrArg₂ List.cons ?_ ?_
    · simp [record.genNonRuntime, atomicAddUint64]
    · apply List.map_congr_left
      intro k _
      simp only [record.genNonRuntime, atomicAddUint64, Function.comp]
      omega

/-- Without wrap-around the sequence ids of `populate` are c+1, ..., c+N. -/
theorem seqids_eq_range (logger : Logger) (inputs : List (record × Time))
    (h : logger.seqid + inputs.length < 2 ^ 64) :
    seqids logger inputs = List.range' (logger.seqid + 1) inputs.length := by
  rw [seqids_eq_map, List.range'_eq_map_range]
  apply List.map_congr_left
  intro k hk
  have hk2 : k < inputs.length := List.mem_range.mp hk
  have : logger.seqid + 1 + k < 2 ^ 64 := by omega
  exact Nat.mod_eq_of_lt this

/-- As long as there are at most 2^64 records, the sequence ids of `populate`
are pairwise distinct, also across a wrap-around of the counter. -/
theorem seqids_nodup (logger : Logger) (inputs : List (record × Time))
    (h : inputs.length ≤ 2 ^ 64) : (seqids logger inputs).Nodup := by
  rw [seqids_eq_map]
  refine (List.nodup_map_iff_inj_on (List.nodup_range _)).mpr ?_
  intro i hi j hj hij
  have hi2 : i < inputs.length := List.mem_range.mp hi
  have hj2 : j < inputs.length := List.mem_range.mp hj
  have hij2 : (logger.seqid + 1 + i) % 2 ^ 64 = (logger.seqid + 1 + j) % 2 ^ 64 := hij
  norm_num at hij2 h
  omega

/-- C5, as stated, fails at the wrap-around of the 64-bit counter: on a logger
whose counter holds 2^64 - 2, two records populated one after another receive
2^64 - 1 and then 0, so the second seqid is not greater than the first. -/
theorem seqids_not_increasing_at_wrap :
    seqids ⟨"", 2 ^ 64 - 2, Time.zero, ""⟩
        [(record.zero, Time.zero), (record.zero, Time.zero)] = [2 ^ 64 - 1, 0] ∧
    ¬ (seqids ⟨"", 2 ^ 64 - 2, Time.zero, ""⟩
        [(record.zero, Time.zero), (record.zero, Time.zero)]).Pairwise (fun a b => a < b) := by
  have h : seqids ⟨"", 2 ^ 64 - 2, Time.zero, ""⟩
      [(record.zero, Time.zero), (record.zero, Time.zero)] = [2 ^ 64 - 1, 0] := by
    simp [seqids, populate, record.genNonRuntime, atomicAddUint64]
  refine ⟨h, ?_⟩
  rw [h]
  simp

/-- C5, amended: for every sequence of at most 2^64 records populated one
after another by `genNonRuntime` on the same logger, the seqid values are
pairwise distinct; as long as the counter does not wrap around (c + N < 2^64
for starting counter c and N records) they are exactly c+1, ..., c+N and hence
strictly increasing in creation order; and when the counter starts at 0 and
N < 2^64 the first N records receive exactly 1, 2, ..., N. -/
theorem seqids_distinct_and_increasing (logger : Logger) (inputs : List (record × Time))
    (h : inputs.length ≤ 2 ^ 64) :
    (seqids logger inputs).Nodup ∧
    (logger.seqid + inputs.length < 2 ^ 64 →
      seqids logger inputs = List.range' (logger.seqid + 1) inputs.length ∧
      (seqids logger inputs).Pairwise (fun a b => a < b)) ∧
    (logger.seqid = 0 → inputs.length < 2 ^ 64 →
      seqids logger inputs = List.range' 1 inputs.length) := by
  refine ⟨seqids_nodup logger inputs h, fun hc => ?_, fun h0 hN => ?_⟩
  · have e := seqids_eq_range logger inputs hc
    refine ⟨e, ?_⟩
    rw [e]
    exact List.pairwise_lt_range' _ _
  · have e := seqids_eq_range logger inputs (by omega)
    rw [e, h0]

/-- C5 at a concrete input: three records on a logger whose counter starts at
0 receive 1, 2, 3. -/
theorem seqids_distinct_and_increasing_witness :
    [(record.zero, Time.zero), (record.zero, Time.zero), (record.zero, Time.zero)].length
      ≤ 2 ^ 64 ∧
    (seqids ⟨"log", 0, Time.zero, ""⟩
      [(record.zero, Time.zero), (record.zero, Time.zero), (record.zero, Time.zero)]).Nodup ∧
    seqids ⟨"log", 0, Time.zero, ""⟩
      [(record.zero, Time.zero), (record.zero, Time.zero), (record.zero, Time.zero)]
      = [1, 2, 3] :=
  ⟨by decide,
   (seqids_distinct_and_increasing ⟨"log", 0, Time.zero, ""⟩
      [(record.zero, Time.zero), (record.zero, Time.zero), (record.zero, Time.zero)]
      (by decide)).1,
   (seqids_distinct_and_increasing ⟨"log", 0, Time.zero, ""⟩
      [(record.zero, Time.zero), (record.zero, Time.zero), (record.zero, Time.zero)]
      (by decide)).2.2 rfl (by decide)⟩

/-! ## Short function names -/

/-- The split of a sequence ends with the piece after the last separator: the
last piece is free of the separator when there is one in the input, and is the
pending piece followed by the whole input when there is none. -/
theorem splitAux_last {α : Type} [DecidableEq α] (sep : α) (cs acc : List α) :
    ∃ init last, splitAux sep cs acc = init ++ [last] ∧
      ((sep ∉ cs ∧ last = acc.reverse ++ cs) ∨
       (∃ pre, cs = pre ++ sep :: last ∧ sep ∉ last)) := by
  induction cs generalizing acc with
  | nil => exact ⟨[], acc.reverse, rfl, Or.inl ⟨by simp, by simp⟩⟩
  | cons c cs ih =>
    by_cases hc : c = sep
    · obtain ⟨init, last, he, hl⟩ := ih []
      refine ⟨acc.reverse :: init, last, by simp [splitAux, hc, he], Or.inr ?_⟩
      rcases hl with ⟨hn, hlast⟩ | ⟨pre, hpre, hn⟩
      · refine ⟨[], ?_, ?_⟩
        · simp at hlast
          simp [hc, hlast]
        · simp at hlast
          rw [hlast]
          exact hn
      · exact ⟨c :: pre, by simp [hpre], hn⟩
    · obtain ⟨init, last, he, hl⟩ := ih (c :: acc)
      refine ⟨init, last, by simp [splitAux, hc, he], ?_⟩
      rcases hl with ⟨hn, hlast⟩ | ⟨pre, hpre, hn⟩
      · refine Or.inl ⟨?_, by simp [hlast]⟩
        simp only [List.mem_cons, not_or]
        exact ⟨fun e => hc e.symm, hn⟩
      · exact Or.inr ⟨c :: pre, by simp [hpre], hn⟩

/-- Indexing a non-empty slice at its length minus one yields its last
element. -/
theorem goIndex_length_sub_one {α : Type} (xs : List α) (x : α) :
    goIndex (xs ++ [x]) (((xs ++ [x]).length : Int) - 1) = some x := by
  have h : (((xs ++ [x]).length : Int) - 1) = (xs.length : Int) := by
    simp
  rw [h]
  simp [goIndex]

/-- The result of `getShortFuncName`: it exists, contains no dot, and is the
whole input when that has no dot, else what follows the last dot. -/
theorem getShortFuncName_spec (s : String) :
    ∃ r : String, getShortFuncName s = some r ∧ '.' ∉ r.data ∧
      (('.' ∉ s.data ∧ r = s) ∨ ∃ pre : List Char, s.data = pre ++ '.' :: r.data) := by
  obtain ⟨init, last, he, hl⟩ := splitAux_last '.' s.data []
  refine ⟨String.mk last, ?_, ?_, ?_⟩
  · simp only [getShortFuncName, stringsSplit, he, List.map_append, List.map_cons, List.map_nil]
    exact goIndex_length_sub_one _ _
  · rcases hl with ⟨hn, hlast⟩ | ⟨pre, _, hn⟩
    · simp at hlast
      rw [hlast]
      exact hn
    · exact hn
  · rcases hl with ⟨hn, hlast⟩ | ⟨pre, hpre, _⟩
    · simp at hlast
      exact Or.inl ⟨hn, by rw [hlast]⟩
    · exact Or.inr ⟨pre, hpre⟩

/-- C7: for every string s, including the empty string and strings ending in a
dot, `getShortFuncName s` returns a value (the index into the split result is
in range), and that value is the last dot-separated component of s: the part
of s after its last dot, or s itself when s contains no dot; the result
contains no dot, and `getShortFuncName "pkg.Type.Method"` is `"Method"`. -/
theorem getShortFuncName_last_component :
    (∀ s : String, ∃ r : String, getShortFuncName s = some r ∧ '.' ∉ r.data ∧
      (('.' ∉ s.data ∧ r = s) ∨ ∃ pre : List Char, s.data = pre ++ '.' :: r.data)) ∧
    getShortFuncName "pkg.Type.Method" = some "Method" ∧
    getShortFuncName "" = some "" ∧
    getShortFuncName "pkg.Type." = some "" :=
  ⟨getShortFuncName_spec, by decide, by decide, by decide⟩

/-! ## Runtime capture -/

/-- C8: for every record, when the stack lookup inside `genRuntime` reports
failure, `genRuntime` leaves the record with pathname, funcname and filename
equal to `"???"` and lineno equal to -1, and the four corresponding resolvers
then return exactly those sentinel values; the lineno -1 differs from the
lineno 0 of a record that was never initialised. -/
theorem genRuntime_failure_sentinels (r : record) (caller : CallerInfo)
    (funcForPC : Nat → String) (h : caller.ok = false) :
    ∃ r1 : record, r.genRuntime caller funcForPC = some r1 ∧
      r1.pathname = "???" ∧ r1.funcname = "???" ∧ r1.filename = "???" ∧ r1.lineno = -1 ∧
      (∀ (env : Env) (logger : Logger),
        (Logger.pathname env logger r1).1 = Value.str "???" ∧
        (Logger.funcname env logger r1).1 = Value.str "???" ∧
        (Logger.filename env logger r1).1 = Value.str "???" ∧
        (Logger.lineno env logger r1).1 = Value.int (-1)) ∧
      r1.lineno ≠ record.zero.lineno := by
  refine ⟨{ r with
      pathname := errString, funcname := errString, filename := errString, lineno := -1 },
    ?_, rfl, rfl, rfl, rfl, fun _ _ => ⟨rfl, rfl, rfl, rfl⟩, ?_⟩
  · simp only [record.genRuntime, h]
    rfl
  · show (-1 : Int) ≠ 0
    decide

/-- C8 at a concrete input: a failed lookup on the zero record. -/
theorem genRuntime_failure_sentinels_witness :
    (CallerInfo.mk 0 "" 0 false).ok = false ∧
    ∃ r1 : record, record.zero.genRuntime (CallerInfo.mk 0 "" 0 false) (fun _ => "") = some r1 ∧
      r1.pathname = "???" ∧ r1.funcname = "???" ∧ r1.filename = "???" ∧ r1.lineno = -1 ∧
      (∀ (env : Env) (logger : Logger),
        (Logger.pathname env logger r1).1 = Value.str "???" ∧
        (Logger.funcname env logger r1).1 = Value.str "???" ∧
        (Logger.filename env logger r1).1 = Value.str "???" ∧
        (Logger.lineno env logger r1).1 = Value.int (-1)) ∧
      r1.lineno ≠ record.zero.lineno :=
  ⟨rfl, genRuntime_failure_sentinels record.zero (CallerInfo.mk 0 "" 0 false) (fun _ => "") rfl⟩

/-- What stands before the first separator of a sequence is determined by the
sequence. -/
theorem prefix_before_sep_unique {α : Type} (sep : α) (x y p q : List α)
    (hx : sep ∉ x) (hy : sep ∉ y) (h : x ++ sep :: p = y ++ sep :: q) : x = y := by
  induction x generalizing y with
  | nil =>
    cases y with
    | nil => rfl
    | cons b y =>
      simp only [List.nil_append, List.cons_append, List.cons.injEq] at h
      exact absurd (h.1 ▸ List.mem_cons_self b y) hy
  | cons a x ih =>
    cases y with
    | nil =>
      simp only [List.nil_append, List.cons_append, List.cons.injEq] at h
      exact absurd (h.1 ▸ List.mem_cons_self a x) hx
    | cons b y =>
      simp only [List.cons_append, List.cons.injEq] at h
      rw [h.1, ih y (fun m => hx (List.mem_cons_of_mem _ m))
        (fun m => hy (List.mem_cons_of_mem _ m)) h.2]

/-- What stands after the last separator of a sequence is determined by the
sequence. -/
theorem suffix_after_sep_unique {α : Type} (sep : α) (a b p q : List α)
    (ha : sep ∉ a) (hb : sep ∉ b) (h : p ++ sep :: a = q ++ sep :: b) : a = b := by
  have hr := congrArg List.reverse h
  simp only [List.reverse_append, List.reverse_cons, List.append_assoc, List.singleton_append]
    at hr
  have := prefix_before_sep_unique sep a.reverse b.reverse p.reverse q.reverse
    (by simpa using ha) (by simpa using hb) hr
  exact List.reverse_injective this

/-- C9, as stated, fails: the funcname that `genRuntime` stores is not always
an identifier. For the closure name `main.outer.func1.1` a successful capture
stores the funcname `1`, and for the generic instance name `main.Map[...]` it
stores `]`; neither is an identifier. -/
theorem genRuntime_funcname_not_identifier :
    record.zero.genRuntime (CallerInfo.mk 4096 "/home/user/app/main.go" 42 true)
        (fun _ => "main.outer.func1.1") =
      some { record.zero with
        pathname := "/home/user/app/main.go", funcname := "1",
        filename := "main.go", lineno := 42 } ∧
    isIdentifier "1" = false ∧
    record.zero.genRuntime (CallerInfo.mk 4096 "/home/user/app/main.go" 42 true)
        (fun _ => "main.Map[...]") =
      some { record.zero with
        pathname := "/home/user/app/main.go", funcname := "]",
        filename := "main.go", lineno := 42 } ∧
    isIdentifier "]" = false := by
  decide

/-- C9, amended: for every record, when the stack lookup inside `genRuntime`
succeeds with caller path `file`, line `line` and fully qualified function name
`fname`, `genRuntime` sets pathname to `file`, filename to `path.Base(file)`,
funcname to `getShortFuncName(fname)` and lineno to `line`; so afterwards
filename is the base name of pathname, and funcname is the last dot-separated
component of `fname`: it contains no dot and is `fname` itself or what follows
its last dot, so that whenever `fname` is a qualification, a dot and a dot-free
final part, funcname is that final part. The final part need not be an
identifier. -/
theorem genRuntime_success_fields (r : record) (caller : CallerInfo)
    (funcForPC : Nat → String) (h : caller.ok = true) :
    ∃ r1 : record, r.genRuntime caller funcForPC = some r1 ∧
      r1.pathname = caller.file ∧
      r1.filename = pathBase caller.file ∧
      getShortFuncName (funcForPC caller.pc) = some r1.funcname ∧
      r1.lineno = caller.line ∧
      r1.filename = pathBase r1.pathname ∧
      '.' ∉ r1.funcname.data ∧
      (('.' ∉ (funcForPC caller.pc).data ∧ r1.funcname = funcForPC caller.pc) ∨
        ∃ pre : List Char, (funcForPC caller.pc).data = pre ++ '.' :: r1.funcname.data) ∧
      (∀ q last : String, '.' ∉ last.data → funcForPC caller.pc = q ++ "." ++ last →
        r1.funcname = last) := by
  obtain ⟨short, hs, hdot, hlast⟩ := getShortFuncName_spec (funcForPC caller.pc)
  refine ⟨{ r with
      pathname := caller.file, funcname := short,
      filename := pathBase caller.file, lineno := caller.line },
    ?_, rfl, rfl, hs, rfl, rfl, hdot, hlast, ?_⟩
  · simp only [record.genRuntime, h, hs]
    rfl
  · intro q last hl hq
    have hd : (funcForPC caller.pc).data = q.data ++ '.' :: last.data := by
      rw [hq]
      simp
    show short = last
    rcases hlast with ⟨hn, _⟩ | ⟨pre, hpre⟩
    · exfalso
      apply hn
      rw [hd]
      simp
    · rw [hd] at hpre
      have := suffix_after_sep_unique '.' last.data short.data q.data pre hl hdot hpre
      exact (String.ext this).symm

/-- C9 at a concrete input: a frame in `/home/user/app/main.go`, line 42, of
the method `main.(*Server).Run`. -/
theorem genRuntime_success_fields_witness :
    (CallerInfo.mk 4096 "/home/user/app/main.go" 42 true).ok = true ∧
    record.zero.genRuntime (CallerInfo.mk 4096 "/home/user/app/main.go" 42 true)
        (fun _ => "main.(*Server).Run") =
      some { record.zero with
        pathname := "/home/user/app/main.go", funcname := "Run",
        filename := "main.go", lineno := 42 } ∧
    ∃ r1 : record,
      record.zero.genRuntime (CallerInfo.mk 4096 "/home/user/app/main.go" 42 true)
        (fun _ => "main.(*Server).Run") = some r1 ∧
      r1.pathname = "/home/user/app/main.go" ∧
      r1.filename = pathBase "/home/user/app/main.go" ∧
      getShortFuncName "main.(*Server).Run" = some r1.funcname ∧
      r1.lineno = 42 ∧
      r1.filename = pathBase r1.pathname ∧
      '.' ∉ r1.funcname.data ∧
      (('.' ∉ "main.(*Server).Run".data ∧ r1.funcname = "main.(*Server).Run") ∨
        ∃ pre : List Char, "main.(*Server).Run".data = pre ++ '.' :: r1.funcname.data) ∧
      (∀ q last : String, '.' ∉ last.data → "main.(*Server).Run" = q ++ "." ++ last →
        r1.funcname = last) :=
  ⟨rfl, by decide,
   genRuntime_success_fields record.zero (CallerInfo.mk 4096 "/home/user/app/main.go" 42 true)
     (fun _ => "main.(*Server).Run") rfl⟩

/-! ## Runtime capture not requested -/

/-- C10: `genNonRuntime` changes no caller-location field of any record; so on
a zero-valued record populated by `genNonRuntime` only, the filename, pathname
and funcname resolvers return the empty string and the lineno resolver returns
0, which are not the error sentinels `"???"` and -1. -/
theorem genNonRuntime_keeps_caller_location (logger : Logger) (now : Time) :
    (∀ r : record,
      (r.genNonRuntime logger now).1.pathname = r.pathname ∧
      (r.genNonRuntime logger now).1.filename = r.filename ∧
      (r.genNonRuntime logger now).1.funcname = r.funcname ∧
      (r.genNonRuntime logger now).1.lineno = r.lineno) ∧
    (∀ (env : Env) (lg : Logger),
      (Logger.filename env lg (record.zero.genNonRuntime logger now).1).1 = Value.str "" ∧
      (Logger.pathname env lg (record.zero.genNonRuntime logger now).1).1 = Value.str "" ∧
      (Logger.funcname env lg (record.zero.genNonRuntime logger now).1).1 = Value.str "" ∧
      (Logger.lineno env lg (record.zero.genNonRuntime logger now).1).1 = Value.int 0) ∧
    Value.str "" ≠ Value.str errString ∧
    Value.int 0 ≠ Value.int (-1) :=
  ⟨fun _ => ⟨rfl, rfl, rfl, rfl⟩, fun _ _ => ⟨rfl, rfl, rfl, rfl⟩, by decide, by decide⟩

/-- C11, as stated, fails: on a zero-valued record populated by `genNonRuntime`
only, the pathname, filename and funcname resolvers return the empty string,
not `"???"`, and the lineno resolver returns 0, not -1. -/
theorem skipped_capture_is_not_sentinel :
    (Logger.pathname sampleEnv sampleLogger
      (record.zero.genNonRuntime sampleLogger Time.zero).1).1 = Value.str "" ∧
    (Logger.filename sampleEnv sampleLogger
      (record.zero.genNonRuntime sampleLogger Time.zero).1).1 = Value.str "" ∧
    (Logger.funcname sampleEnv sampleLogger
      (record.zero.genNonRuntime sampleLogger Time.zero).1).1 = Value.str "" ∧
    (Logger.lineno sampleEnv sampleLogger
      (record.zero.genNonRuntime sampleLogger Time.zero).1).1 = Value.int 0 ∧
    (Logger.pathname sampleEnv sampleLogger
      (record.zero.genNonRuntime sampleLogger Time.zero).1).1 ≠ Value.str "???" ∧
    (Logger.filename sampleEnv sampleLogger
      (record.zero.genNonRuntime sampleLogger Time.zero).1).1 ≠ Value.str "???" ∧
    (Logger.funcname sampleEnv sampleLogger
      (record.zero.genNonRuntime sampleLogger Time.zero).1).1 ≠ Value.str "???" ∧
    (Logger.lineno sampleEnv sampleLogger
      (record.zero.genNonRuntime sampleLogger Time.zero).1).1 ≠ Value.int (-1) :=
  ⟨rfl, rfl, rfl, rfl, by decide, by decide, by decide, by decide⟩

/-- C11, amended: on a record for which runtime capture was skipped
(`genRuntime` never called, only `genNonRuntime`), the caller-location fields
keep their zero values: pathname, filename and funcname resolve to the empty
string and lineno to 0. The sentinels `"???"` and -1 are what a failed capture
writes, and each of them differs from the value of the skipped case. -/
theorem skipped_capture_keeps_zero_values (env : Env) (lg logger : Logger) (now : Time) :
    (Logger.pathname env lg (record.zero.genNonRuntime logger now).1).1 = Value.str "" ∧
    (Logger.filename env lg (record.zero.genNonRuntime logger now).1).1 = Value.str "" ∧
    (Logger.funcname env lg (record.zero.genNonRuntime logger now).1).1 = Value.str "" ∧
    (Logger.lineno env lg (record.zero.genNonRuntime logger now).1).1 = Value.int 0 ∧
    (∀ (r : record) (pc : Nat) (file : String) (line : Int) (funcForPC : Nat → String),
      ∃ r1 : record, r.genRuntime (CallerInfo.mk pc file line false) funcForPC = some r1 ∧
        (Logger.pathname env lg r1).1 = Value.str "???" ∧
        (Logger.filename env lg r1).1 = Value.str "???" ∧
        (Logger.funcname env lg r1).1 = Value.str "???" ∧
        (Logger.lineno env lg r1).1 = Value.int (-1)) ∧
    Value.str "" ≠ Value.str "???" ∧
    Value.int 0 ≠ Value.int (-1) := by
  refine ⟨rfl, rfl, rfl, rfl, fun r pc file line funcForPC => ?_, by decide, by decide⟩
  exact ⟨{ r with
      pathname := errString, funcname := errString, filename := errString, lineno := -1 },
    rfl, rfl, rfl, rfl, rfl⟩

/-! ## Time resolvers -/

/-- The 64-bit wrap leaves a value of the `int64` range as it is. -/
theorem wrap64_of_range (x : Int) (h1 : -(2 ^ 63) ≤ x) (h2 : x < 2 ^ 63) : wrap64 x = x := by
  unfold wrap64
  norm_num at h1 h2 ⊢
  omega

/-- The clamp leaves a value of the `int64` range as it is. -/
theorem sat64_of_range (x : Int) (h1 : -(2 ^ 63) ≤ x) (h2 : x < 2 ^ 63) : sat64 x = x := by
  unfold sat64
  norm_num at h1 h2 ⊢
  rw [if_neg (by omega), if_neg (by omega)]

/-- C12, as stated, fails in two ways. A record dated 2200-01-01 on a logger
started at 1700-01-01 (no monotonic readings): the difference exceeds the range
of a duration, `rtime` is clamped to 2^63 - 1, while timestamp minus created is
15778454400000000000. A record and a logger whose wall clock readings are 10
seconds apart and whose monotonic readings are 5 seconds apart: `rtime` is
5000000000, while timestamp minus created is 10000000000. -/
theorem rtime_differs_from_timestamp_sub_created :
    ((Logger.rtime sampleEnv (Logger.mk "log" 0 (Time.mk (-8520336000) 0 none) "")
        { record.zero with time := Time.mk 7258118400 0 none }).1 =
        Value.int64 9223372036854775807 ∧
     (Logger.timestamp sampleEnv (Logger.mk "log" 0 (Time.mk (-8520336000) 0 none) "")
        { record.zero with time := Time.mk 7258118400 0 none }).1 =
        Value.int64 7258118400000000000 ∧
     (Logger.created sampleEnv (Logger.mk "log" 0 (Time.mk (-8520336000) 0 none) "")
        { record.zero with time := Time.mk 7258118400 0 none }).1 =
        Value.int64 (-8520336000000000000) ∧
     (9223372036854775807 : Int) ≠ 7258118400000000000 - (-8520336000000000000)) ∧
    ((Logger.rtime sampleEnv (Logger.mk "log" 0 (Time.mk 1700000000 0 (some 1000)) "")
        { record.zero with time := Time.mk 1700000010 0 (some 5000001000) }).1 =
        Value.int64 5000000000 ∧
     (Logger.timestamp sampleEnv (Logger.mk "log" 0 (Time.mk 1700000000 0 (some 1000)) "")
        { record.zero with time := Time.mk 1700000010 0 (some 5000001000) }).1 =
        Value.int64 1700000010000000000 ∧
     (Logger.created sampleEnv (Logger.mk "log" 0 (Time.mk 1700000000 0 (some 1000)) "")
        { record.zero with time := Time.mk 1700000010 0 (some 5000001000) }).1 =
        Value.int64 1700000000000000000 ∧
     (5000000000 : Int) ≠ 1700000010000000000 - 1700000000000000000) := by
  refine ⟨⟨?_, ?_, ?_, by decide⟩, ⟨?_, ?_, ?_, by decide⟩⟩ <;>
    simp [Logger.rtime, Logger.timestamp, Logger.created, Time.Sub, Time.UnixNano, sat64,
      wrap64, record.zero]

/-- C12, amended: for every logger with start time S and every record with
time T, `timestamp` is the wall clock reading `T.UnixNano()` and `created` is
the wall clock reading `S.UnixNano()`, while `rtime` is `T.Sub(S)`. When both T
and S carry a monotonic clock reading, as values of `time.Now()` do, `rtime` is
the difference of the two monotonic readings, clamped to the `int64` range,
whatever the wall clock readings are; it is the elapsed monotonic time and need
not equal timestamp minus created. When at least one of T and S carries no
monotonic reading, and the Unix times in nanoseconds of both and their
difference fit an `int64`, the value of `rtime` equals the value of
`timestamp` minus the value of `created`. -/
theorem rtime_by_clock_readings (env : Env) (logger : Logger) (r : record) :
    (Logger.timestamp env logger r).1 = Value.int64 r.time.UnixNano ∧
    (Logger.created env logger r).1 = Value.int64 logger.startTime.UnixNano ∧
    (∀ a b : Int, r.time.mono = some a → logger.startTime.mono = some b →
      (Logger.rtime env logger r).1 = Value.int64 (sat64 (a - b)) ∧
      (-(2 ^ 63) ≤ a - b → a - b < 2 ^ 63 →
        (Logger.rtime env logger r).1 = Value.int64 (a - b))) ∧
    ((r.time.mono = none ∨ logger.startTime.mono = none) →
      (-(2 ^ 63) ≤ r.time.sec * 1000000000 + r.time.nsec ∧
        r.time.sec * 1000000000 + r.time.nsec < 2 ^ 63) →
      (-(2 ^ 63) ≤ logger.startTime.sec * 1000000000 + logger.startTime.nsec ∧
        logger.startTime.sec * 1000000000 + logger.startTime.nsec < 2 ^ 63) →
      (-(2 ^ 63) ≤ (r.time.sec * 1000000000 + r.time.nsec) -
          (logger.startTime.sec * 1000000000 + logger.startTime.nsec) ∧
        (r.time.sec * 1000000000 + r.time.nsec) -
          (logger.startTime.sec * 1000000000 + logger.startTime.nsec) < 2 ^ 63) →
      (Logger.rtime env logger r).1 =
        Value.int64 (r.time.UnixNano - logger.startTime.UnixNano)) := by
  refine ⟨rfl, rfl, fun a b ha hb => ?_, fun hm hT hS hD => ?_⟩
  · have e : (Logger.rtime env logger r).1 = Value.int64 (sat64 (a - b)) := by
      show Value.int64 (r.time.Sub logger.startTime) = _
      unfold Time.Sub
      rw [ha, hb]
    refine ⟨e, fun h1 h2 => ?_⟩
    rw [e, sat64_of_range _ h1 h2]
  · have eT : r.time.UnixNano = r.time.sec * 1000000000 + r.time.nsec :=
      wrap64_of_range _ hT.1 hT.2
    have eS : logger.startTime.UnixNano =
        logger.startTime.sec * 1000000000 + logger.startTime.nsec :=
      wrap64_of_range _ hS.1 hS.2
    have e : (r.time.sec - logger.startTime.sec) * 1000000000 +
        ((r.time.nsec : Int) - logger.startTime.nsec) =
        (r.time.sec * 1000000000 + r.time.nsec) -
        (logger.startTime.sec * 1000000000 + logger.startTime.nsec) := by ring
    have eD : r.time.Sub logger.startTime = (r.time.sec * 1000000000 + r.time.nsec) -
        (logger.startTime.sec * 1000000000 + logger.startTime.nsec) := by
      unfold Time.Sub
      split
      · next a b ha hb =>
        rcases hm with hm | hm
        · rw [hm] at ha
          exact Option.noConfusion ha
        · rw [hm] at hb
          exact Option.noConfusion hb
      · rw [e]
        exact sat64_of_range _ hD.1 hD.2
    show Value.int64 (r.time.Sub logger.startTime) = _
    rw [eD, eT, eS]

/-- C12 at concrete inputs. A record and a logger that both carry monotonic
readings, 3218166 ns apart, with wall clocks 3218156 ns apart: `rtime` is
3218166. A record without monotonic reading stamped 12.5 seconds after the
start of the sample logger: `rtime` is 12500000000, timestamp minus created. -/
theorem rtime_by_clock_readings_witness :
    (Logger.rtime sampleEnv (Logger.mk "log" 0 (Time.mk 1700000000 100 (some 5000)) "")
      { record.zero with time := Time.mk 1700000000 3218256 (some 3223166) }).1 =
      Value.int64 3218166 ∧
    (Logger.rtime sampleEnv sampleLogger
      { record.zero with time := Time.mk 1700000012 500000000 none }).1 =
      Value.int64 12500000000 := by
  constructor
  · exact ((rtime_by_clock_readings sampleEnv
      (Logger.mk "log" 0 (Time.mk 1700000000 100 (some 5000)) "")
      { record.zero with time := Time.mk 1700000000 3218256 (some 3223166) }).2.2.1
      3223166 5000 rfl rfl).2 (by decide) (by decide)
  · have h := (rtime_by_clock_readings sampleEnv sampleLogger
      { record.zero with time := Time.mk 1700000012 500000000 none }).2.2.2
      (Or.inl rfl) (by decide) (by decide) (by decide)
    rw [h]
    decide

/-! ## Resolvers -/

/-- Repeated calls of a resolver that, on this record and logger, changes
neither: every call returns the same value, and the state stays as it was. -/
theorem callTimes_of_fixed (f : Resolver) (env : Env) (logger : Logger) (r : record)
    (v : Value) (h : f env logger r = (v, r, logger)) (n : Nat) :
    callTimes f env n logger r = (List.replicate n v, r, logger) := by
  induction n with
  | zero => rfl
  | succ n ih => simp [callTimes, h, ih, List.replicate_succ]

/-- A successful lookup in an association list returns a listed pair. -/
theorem mem_of_lookup_eq_some {β : Type} (s : String) (b : β) (l : List (String × β))
    (h : l.lookup s = some b) : (s, b) ∈ l := by
  induction l with
  | nil => simp at h
  | cons p l ih =>
    obtain ⟨k, v⟩ := p
    by_cases hk : s = k
    · subst hk
      simp [List.lookup] at h
      simp [h]
    · have hb : (s == k) = false := by simpa using hk
      simp only [List.lookup, hb] at h
      exact List.mem_cons_of_mem _ (ih h)

/-- C13: resolving the seqid token is idempotent: for every logger and record,
calling `nextSeqid` any number of times returns the seqid of the record each
time and changes neither the record nor the logger; on a record populated by
`genNonRuntime` the value returned each time is the post-increment counter
that `genNonRuntime` stored, and the counter of the logger stays at that
value. -/
theorem nextSeqid_idempotent (env : Env) (logger : Logger) (r : record) (now : Time)
    (n : Nat) :
    callTimes Logger.nextSeqid env n logger r =
      (List.replicate n (Value.uint64 r.seqid), r, logger) ∧
    callTimes Logger.nextSeqid env n (r.genNonRuntime logger now).2
        (r.genNonRuntime logger now).1 =
      (List.replicate n (Value.uint64 ((logger.seqid + 1) % 2 ^ 64)),
        (r.genNonRuntime logger now).1, (r.genNonRuntime logger now).2) ∧
    (callTimes Logger.nextSeqid env n (r.genNonRuntime logger now).2
        (r.genNonRuntime logger now).1).2.2.seqid = (logger.seqid + 1) % 2 ^ 64 := by
  have h1 := callTimes_of_fixed Logger.nextSeqid env logger r (Value.uint64 r.seqid) rfl n
  have h2 := callTimes_of_fixed Logger.nextSeqid env (r.genNonRuntime logger now).2
    (r.genNonRuntime logger now).1 (Value.uint64 ((logger.seqid + 1) % 2 ^ 64)) rfl n
  refine ⟨h1, h2, ?_⟩
  rw [h2]
  rfl

/-- C14: every registered resolver other than process is a pure read: for
every logger and record it leaves the logger and the record unchanged; the
process resolver leaves the logger unchanged and changes no record field other
than `process`. -/
theorem resolvers_pure_except_process (name : String) (f : Resolver)
    (h : fields.lookup name = some f) (env : Env) (logger : Logger) (r : record) :
    (f env logger r).2.2 = logger ∧
    (name ≠ "process" → (f env logger r).2.1 = r) ∧
    (name = "process" → (f env logger r).2.1 = { r with process := env.pid }) ∧
    { (f env logger r).2.1 with process := r.process } = r := by
  have hm := mem_of_lookup_eq_some name f fields h
  simp only [fields, List.mem_cons, List.mem_singleton, List.not_mem_nil, or_false,
    Prod.mk.injEq] at hm
  rcases hm with hm | hm | hm | hm | hm | hm | hm | hm | hm | hm | hm | hm | hm | hm | hm | hm <;>
    obtain ⟨hn, hf⟩ := hm <;> subst hn <;> subst hf <;>
    first
      | exact ⟨rfl, fun _ => rfl, fun e => absurd e (by decide), rfl⟩
      | exact ⟨rfl, fun e => absurd rfl e, fun _ => rfl, rfl⟩

/-- C14 at concrete inputs: the message resolver and the process resolver on
the zero record. -/
theorem resolvers_pure_except_process_witness :
    fields.lookup "message" = some Logger.message ∧
    (Logger.message sampleEnv sampleLogger record.zero).2.1 = record.zero ∧
    (Logger.message sampleEnv sampleLogger record.zero).2.2 = sampleLogger ∧
    (Logger.process sampleEnv sampleLogger record.zero).2.1 =
      { record.zero with process := 4242 } :=
  ⟨rfl,
   (resolvers_pure_except_process "message" Logger.message rfl sampleEnv sampleLogger
      record.zero).2.1 (by decide),
   (resolvers_pure_except_process "message" Logger.message rfl sampleEnv sampleLogger
      record.zero).1,
   (resolvers_pure_except_process "process" Logger.process rfl sampleEnv sampleLogger
      record.zero).2.2.1 rfl⟩

/-- The base name of a path is never the empty string. -/
theorem pathBase_ne_empty (path : String) : pathBase path ≠ "" := by
  unfold pathBase
  split
  · decide
  · simp only
    split
    · decide
    · rename_i h
      intro e
      apply h
      have := congrArg String.data e
      simpa using this

/-- C15: every one of the sixteen registered resolvers is total: for every
logger and every record, whatever its caller-location fields hold, the lookup
of the token in `fields` finds a resolver and the call returns a value, with
the record and the logger after the call; the sixteen values are the ones
listed. The module resolver drops the error of the executable-path lookup and
returns `path.Base` of whatever path the lookup produced, with or without an
error, so a failed lookup degrades to a string, which is never empty: `"."`
both for the path `"."` and for the empty path. -/
theorem resolvers_total (env : Env) (logger : Logger) (r : record) :
    (fields.lookup "name").map (fun f => f env logger r) =
      some (Value.str logger.name, r, logger) ∧
    (fields.lookup "seqid").map (fun f => f env logger r) =
      some (Value.uint64 r.seqid, r, logger) ∧
    (fields.lookup "levelno").map (fun f => f env logger r) =
      some (Value.int32 (wrap32 r.level), r, logger) ∧
    (fields.lookup "levelname").map (fun f => f env logger r) =
      some (Value.str (env.levelNames r.level), r, logger) ∧
    (fields.lookup "created").map (fun f => f env logger r) =
      some (Value.int64 logger.startTime.UnixNano, r, logger) ∧
    (fields.lookup "nsecs").map (fun f => f env logger r) =
      some (Value.int logger.startTime.Nanosecond, r, logger) ∧
    (fields.lookup "time").map (fun f => f env logger r) =
      some (Value.str (env.formatTime r.time logger.timeFormat), r, logger) ∧
    (fields.lookup "timestamp").map (fun f => f env logger r) =
      some (Value.int64 r.time.UnixNano, r, logger) ∧
    (fields.lookup "rtime").map (fun f => f env logger r) =
      some (Value.int64 (r.time.Sub logger.startTime), r, logger) ∧
    (fields.lookup "filename").map (fun f => f env logger r) =
      some (Value.str r.filename, r, logger) ∧
    (fields.lookup "pathname").map (fun f => f env logger r) =
      some (Value.str r.pathname, r, logger) ∧
    (fields.lookup "module").map (fun f => f env logger r) =
      some (Value.str (pathBase env.executable.1), r, logger) ∧
    (fields.lookup "lineno").map (fun f => f env logger r) =
      some (Value.int r.lineno, r, logger) ∧
    (fields.lookup "funcname").map (fun f => f env logger r) =
      some (Value.str r.funcname, r, logger) ∧
    (fields.lookup "process").map (fun f => f env logger r) =
      some (Value.int env.pid, { r with process := env.pid }, logger) ∧
    (fields.lookup "message").map (fun f => f env logger r) =
      some (Value.str r.message, r, logger) ∧
    (∀ (path : String) (err : Option String),
      (fields.lookup "module").map
          (fun f => (f { env with executable := (path, err) } logger r).1) =
        some (Value.str (pathBase path)) ∧
      (Logger.module { env with executable := (path, err) } logger r).1 ≠ Value.str "") ∧
    (∀ err : String,
      (fields.lookup "module").map
          (fun f => (f { env with executable := (".", some err) } logger r).1) =
        some (Value.str ".") ∧
      (fields.lookup "module").map
          (fun f => (f { env with executable := ("", some err) } logger r).1) =
        some (Value.str ".")) :=
  ⟨rfl, rfl, rfl, rfl, rfl, rfl, rfl, rfl, rfl, rfl, rfl, rfl, rfl, rfl, rfl, rfl,
   fun path _ => ⟨rfl, fun e => pathBase_ne_empty path (Value.str.inj e)⟩,
   fun _ => ⟨rfl, rfl⟩⟩

/-- C15 at concrete inputs: on a record whose capture failed, in an environment
whose executable lookup failed, the funcname token resolves to the sentinel and
the module token to `"."`; in the sample environment the module token resolves
to the base name of the executable. -/
theorem resolvers_total_witness :
    (fields.lookup "funcname").map (fun f => f
        (Env.mk (".", some "no executable") 1 (fun _ _ => "") (fun _ => "")) sampleLogger
        { record.zero with pathname := "???", funcname := "???", filename := "???",
                           lineno := -1 }) =
      some (Value.str "???",
        { record.zero with pathname := "???", funcname := "???", filename := "???",
                           lineno := -1 }, sampleLogger) ∧
    (fields.lookup "module").map (fun f => (f
        (Env.mk (".", some "no executable") 1 (fun _ _ => "") (fun _ => "")) sampleLogger
        { record.zero with pathname := "???", funcname := "???", filename := "???",
                           lineno := -1 }).1) =
      some (Value.str ".") ∧
    (fields.lookup "module").map (fun f => f sampleEnv sampleLogger record.zero) =
      some (Value.str "nuagekubemon", record.zero, sampleLogger) :=
  ⟨(resolvers_total (Env.mk (".", some "no executable") 1 (fun _ _ => "") (fun _ => ""))
      sampleLogger
      { record.zero with pathname := "???", funcname := "???", filename := "???",
                         lineno := -1 }).2.2.2.2.2.2.2.2.2.2.2.2.2.1,
   ((resolvers_total (Env.mk (".", some "no executable") 1 (fun _ _ => "") (fun _ => ""))
      sampleLogger
      { record.zero with pathname := "???", funcname := "???", filename := "???",
                         lineno := -1 }).2.2.2.2.2.2.2.2.2.2.2.2.2.2.2.2.2
      "no executable").1,
   (resolvers_total sampleEnv sampleLogger record.zero).2.2.2.2.2.2.2.2.2.2.2.1.trans
     (by decide)⟩

/-- C16: the registry wires each token to its own source: for every logger and
record, resolving name returns the name of the logger, seqid the seqid of the
record, levelno the level of the record converted to a 32-bit integer (the
level itself when it is in the 32-bit range), pathname, filename, lineno and
funcname the fields of the record with those names, and message the message
text stored in that same record. -/
theorem registry_wiring (env : Env) (logger : Logger) (r : record) :
    (fields.lookup "name").map (fun f => (f env logger r).1) = some (Value.str logger.name) ∧
    (fields.lookup "seqid").map (fun f => (f env logger r).1) = some (Value.uint64 r.seqid) ∧
    (fields.lookup "levelno").map (fun f => (f env logger r).1) =
      some (Value.int32 (wrap32 r.level)) ∧
    (-(2 ^ 31) ≤ r.level → r.level < 2 ^ 31 → wrap32 r.level = r.level) ∧
    (fields.lookup "pathname").map (fun f => (f env logger r).1) =
      some (Value.str r.pathname) ∧
    (fields.lookup "filename").map (fun f => (f env logger r).1) =
      some (Value.str r.filename) ∧
    (fields.lookup "lineno").map (fun f => (f env logger r).1) = some (Value.int r.lineno) ∧
    (fields.lookup "funcname").map (fun f => (f env logger r).1) =
      some (Value.str r.funcname) ∧
    (fields.lookup "message").map (fun f => (f env logger r).1) =
      some (Value.str r.message) := by
  refine ⟨rfl, rfl, rfl, fun h1 h2 => ?_, rfl, rfl, rfl, rfl, rfl⟩
  unfold wrap32
  norm_num at h1 h2 ⊢
  omega

/-- C16 at a concrete input: a record of level 20 with seqid 7 and message
`"a"` resolves levelno to 20, seqid to 7 and message to `"a"`. -/
theorem registry_wiring_witness :
    (fields.lookup "levelno").map (fun f => (f sampleEnv sampleLogger
      { record.zero with level := 20, seqid := 7, message := "a" }).1) =
      some (Value.int32 20) ∧
    (fields.lookup "seqid").map (fun f => (f sampleEnv sampleLogger
      { record.zero with level := 20, seqid := 7, message := "a" }).1) =
      some (Value.uint64 7) ∧
    (fields.lookup "message").map (fun f => (f sampleEnv sampleLogger
      { record.zero with level := 20, seqid := 7, message := "a" }).1) =
      some (Value.str "a") := by
  have h := registry_wiring sampleEnv sampleLogger
    { record.zero with level := 20, seqid := 7, message := "a" }
  refine ⟨?_, h.2.1, h.2.2.2.2.2.2.2.2⟩
  rw [h.2.2.1, h.2.2.2.1 (by decide) (by decide)]

/-- C17, as stated, fails: a later request does not return the stored value.
After a first request that stored the process id 7 in the record, a second
request made when `os.Getpid()` yields 9 returns 9, not the stored 7, and
overwrites the stored value. -/
theorem process_does_not_return_stored_value :
    (Logger.process { sampleEnv with pid := 7 } sampleLogger record.zero).1 = Value.int 7 ∧
    (Logger.process { sampleEnv with pid := 7 } sampleLogger record.zero).2.1.process = 7 ∧
    (Logger.process { sampleEnv with pid := 9 } sampleLogger
      (Logger.process { sampleEnv with pid := 7 } sampleLogger record.zero).2.1).1 =
      Value.int 9 ∧
    (Logger.process { sampleEnv with pid := 9 } sampleLogger
      (Logger.process { sampleEnv with pid := 7 } sampleLogger record.zero).2.1).1 ≠
      Value.int
        (Logger.process { sampleEnv with pid := 7 } sampleLogger record.zero).2.1.process ∧
    (Logger.process { sampleEnv with pid := 9 } sampleLogger
      (Logger.process { sampleEnv with pid := 7 } sampleLogger record.zero).2.1).2.1.process =
      9 :=
  ⟨rfl, rfl, rfl, by decide, rfl⟩

/-- C17, amended: the process resolver does not memoize: on every request,
whatever the record holds in `process`, it looks up the process identifier,
stores it in the `process` field of the record and returns it; so n requests
made while the process identifier stays the same all return that identifier
and leave it stored in the record. -/
theorem process_looks_up_on_every_request (env : Env) (logger : Logger) (r : record)
    (n : Nat) :
    Logger.process env logger r = (Value.int env.pid, { r with process := env.pid }, logger) ∧
    callTimes Logger.process env (n + 1) logger r =
      (List.replicate (n + 1) (Value.int env.pid), { r with process := env.pid }, logger) := by
  refine ⟨rfl, ?_⟩
  have h := callTimes_of_fixed Logger.process env logger { r with process := env.pid }
    (Value.int env.pid) rfl n
  simp only [callTimes, List.replicate_succ]
  have e : Logger.process env logger r =
      (Value.int env.pid, { r with process := env.pid }, logger) := rfl
  rw [e]
  simp only [h]

/-- C18: `genRuntime` changes only the four caller-location fields: for every
record and either outcome of the stack lookup it returns a record whose level,
seqid, module, thread, process, message and time are those of the record it
was given, and whose pathname, filename, funcname and lineno are all assigned
from the outcome of the lookup alone: the file, its base name, the short
function name and the line on success, the sentinels `"???"` and -1 on
failure. -/
theorem genRuntime_changes_only_caller_location (r : record) (caller : CallerInfo)
    (funcForPC : Nat → String) :
    ∃ r1 : record, r.genRuntime caller funcForPC = some r1 ∧
      r1.level = r.level ∧ r1.seqid = r.seqid ∧ r1.module = r.module ∧
      r1.thread = r.thread ∧ r1.process = r.process ∧ r1.message = r.message ∧
      r1.time = r.time ∧
      r1.pathname = (if caller.ok then caller.file else "???") ∧
      r1.filename = (if caller.ok then pathBase caller.file else "???") ∧
      some r1.funcname =
        (if caller.ok then getShortFuncName (funcForPC caller.pc) else some "???") ∧
      r1.lineno = (if caller.ok then caller.line else -1) := by
  cases hok : caller.ok with
  | false =>
    refine ⟨{ r with
        pathname := errString, funcname := errString, filename := errString, lineno := -1 },
      ?_, rfl, rfl, rfl, rfl, rfl, rfl, rfl, rfl, rfl, rfl, rfl⟩
    simp only [record.genRuntime, hok]
    rfl
  | true =>
    obtain ⟨short, hs, _, _⟩ := getShortFuncName_spec (funcForPC caller.pc)
    refine ⟨{ r with
        pathname := caller.file, funcname := short,
        filename := pathBase caller.file, lineno := caller.line },
      ?_, rfl, rfl, rfl, rfl, rfl, rfl, rfl, rfl, rfl, ?_, rfl⟩
    · simp only [record.genRuntime, hok, hs]
      rfl
    · simp only [if_true, hs]

/-! ## Concurrent calls of genNonRuntime -/

/-- The three steps of one caller, taken without interruption, are one call of
`genNonRuntime`. -/
theorem stepCaller_thrice (logger : Logger) (r : record) (now : Time) :
    let s1 := stepCaller logger (Caller.mk 0 0 r now)
    let s2 := stepCaller s1.1 s1.2
    let s3 := stepCaller s2.1 s2.2
    s3.2.pc = 3 ∧ (s3.2.r, s3.1) = r.genNonRuntime logger now := by
  simp [stepCaller, record.genNonRuntime]

/-- The program counter after a step: one more, up to 3. -/
theorem stepCaller_pc (logger : Logger) (c : Caller) :
    (stepCaller logger c).2.pc = if c.pc < 3 then c.pc + 1 else c.pc := by
  unfold stepCaller
  by_cases h0 : c.pc = 0
  · simp [h0]
  · by_cases h1 : c.pc = 1
    · simp [h1]
    · by_cases h2 : c.pc = 2
      · simp [h2]
      · have h3 : ¬ c.pc < 3 := by omega
        simp [h0, h1, h2, h3]

/-- A step of one caller keeps the invariant, as long as the counter cannot
wrap around. -/
theorem ticketInv_step (logger : Logger) (pre post : List Caller) (c : Caller)
    (hlen : (pre ++ c :: post).length < 2 ^ 64)
    (h : TicketInv logger.seqid (pre ++ c :: post)) :
    TicketInv (stepCaller logger c).1.seqid (pre ++ (stepCaller logger c).2 :: post) := by
  obtain ⟨hcount, hrange, hpair, hseq, hpc⟩ := h
  simp only [List.countP_append, List.countP_cons, List.mem_append, List.mem_cons,
    List.pairwise_append, List.pairwise_cons, List.length_append, List.length_cons]
    at hcount hrange hpair hseq hpc hlen
  have hpre := List.countP_le_length (fun c : Caller => decide (1 ≤ c.pc)) (l := pre)
  have hpost := List.countP_le_length (fun c : Caller => decide (1 ≤ c.pc)) (l := post)
  unfold TicketInv
  simp only [List.countP_append, List.countP_cons, List.mem_append, List.mem_cons,
    List.pairwise_append, List.pairwise_cons]
  unfold stepCaller
  by_cases h0 : c.pc = 0
  · have hk : atomicAddUint64 logger.seqid 1 = logger.seqid + 1 := by
      unfold atomicAddUint64
      apply Nat.mod_eq_of_lt
      simp [h0] at hcount
      omega
    simp only [h0, if_true, hk]
    simp [h0] at hcount
    refine ⟨by simp; omega, ?_, ⟨hpair.1, ⟨?_, hpair.2.1.2⟩, ?_⟩, ?_, ?_⟩
    · rintro x (hx | hx | hx) hx1
      · have := hrange x (Or.inl hx) hx1
        omega
      · subst hx
        simp
      · have := hrange x (Or.inr (Or.inr hx)) hx1
        omega
    · intro b hb _ hb1
      have := hrange b (Or.inr (Or.inr hb)) hb1
      omega
    · intro a ha b hb ha1 hb1
      rcases hb with hb | hb
      · subst hb
        have := hrange a (Or.inl ha) ha1
        show a.tmp ≠ logger.seqid + 1
        omega
      · exact hpair.2.2 a ha b (Or.inr hb) ha1 hb1
    · rintro x (hx | hx | hx) hx2
      · exact hseq x (Or.inl hx) hx2
      · subst hx
        simp at hx2
      · exact hseq x (Or.inr (Or.inr hx)) hx2
    · rintro x (hx | hx | hx)
      · exact hpc x (Or.inl hx)
      · subst hx
        simp
      · exact hpc x (Or.inr (Or.inr hx))
  · by_cases h1 : c.pc = 1
    · simp only [h1, if_true, if_false, Nat.one_ne_zero]
      simp [h1] at hcount
      have hc := hrange c (Or.inr (Or.inl rfl)) (by omega)
      refine ⟨by simp; omega, ?_, ⟨hpair.1, ⟨?_, hpair.2.1.2⟩, ?_⟩, ?_, ?_⟩
      · rintro x (hx | hx | hx) hx1
        · exact hrange x (Or.inl hx) hx1
        · subst hx
          exact hc
        · exact hrange x (Or.inr (Or.inr hx)) hx1
      · intro b hb _ hb1
        exact hpair.2.1.1 b hb (by omega) hb1
      · intro a ha b hb ha1 hb1
        rcases hb with hb | hb
        · subst hb
          exact hpair.2.2 a ha c (Or.inl rfl) ha1 (by omega)
        · exact hpair.2.2 a ha b (Or.inr hb) ha1 hb1
      · rintro x (hx | hx | hx) hx2
        · exact hseq x (Or.inl hx) hx2
        · subst hx
          rfl
        · exact hseq x (Or.inr (Or.inr hx)) hx2
      · rintro x (hx | hx | hx)
        · exact hpc x (Or.inl hx)
        · subst hx
          simp
        · exact hpc x (Or.inr (Or.inr hx))
    · by_cases h2 : c.pc = 2
      · simp only [h2, if_true, if_false]
        simp [h2] at hcount
        have hc := hrange c (Or.inr (Or.inl rfl)) (by omega)
        have hcs := hseq c (Or.inr (Or.inl rfl)) (by omega)
        refine ⟨by simp; omega, ?_, ⟨hpair.1, ⟨?_, hpair.2.1.2⟩, ?_⟩, ?_, ?_⟩
        · rintro x (hx | hx | hx) hx1
          · exact hrange x (Or.inl hx) hx1
          · subst hx
            exact hc
          · exact hrange x (Or.inr (Or.inr hx)) hx1
        · intro b hb _ hb1
          exact hpair.2.1.1 b hb (by omega) hb1
        · intro a ha b hb ha1 hb1
          rcases hb with hb | hb
          · subst hb
            exact hpair.2.2 a ha c (Or.inl rfl) ha1 (by omega)
          · exact hpair.2.2 a ha b (Or.inr hb) ha1 hb1
        · rintro x (hx | hx | hx) hx2
          · exact hseq x (Or.inl hx) hx2
          · subst hx
            exact hcs
          · exact hseq x (Or.inr (Or.inr hx)) hx2
        · rintro x (hx | hx | hx)
          · exact hpc x (Or.inl hx)
          · subst hx
            simp
          · exact hpc x (Or.inr (Or.inr hx))
      · simp only [h0, h1, h2, if_false]
        exact ⟨hcount, hrange, hpair, hseq, hpc⟩

/-- A list splits around the element at an index, and `set` replaces that
element in the split. -/
theorem split_at_index {α : Type} (l : List α) (i : Nat) (a : α) (h : l[i]? = some a) :
    ∃ pre post, l = pre ++ a :: post ∧ ∀ b : α, l.set i b = pre ++ b :: post := by
  obtain ⟨hi, ha⟩ := List.getElem?_eq_some.mp h
  refine ⟨l.take i, l.drop (i + 1), ?_, fun b => ?_⟩
  · rw [← ha]
    simp
  · rw [List.set_eq_take_append_cons_drop, if_pos hi]

/-- A scheduled step keeps the number of callers. -/
theorem stepAt_length (s : Logger × List Caller) (i : Nat) :
    (stepAt s i).2.length = s.2.length := by
  unfold stepAt
  cases s.2[i]? with
  | none => rfl
  | some c => simp

/-- A scheduled step keeps the invariant. -/
theorem ticketInv_stepAt (s : Logger × List Caller) (i : Nat)
    (hlen : s.2.length < 2 ^ 64) (h : TicketInv s.1.seqid s.2) :
    TicketInv (stepAt s i).1.seqid (stepAt s i).2 := by
  unfold stepAt
  cases hc : s.2[i]? with
  | none => exact h
  | some c =>
    obtain ⟨pre, post, hl, hset⟩ := split_at_index s.2 i c hc
    simp only [hset]
    rw [hl] at h hlen
    exact ticketInv_step s.1 pre post c hlen h

/-- A run keeps the number of callers. -/
theorem runSchedule_length (sched : List Nat) (s : Logger × List Caller) :
    (runSchedule s sched).2.length = s.2.length := by
  induction sched generalizing s with
  | nil => rfl
  | cons i rest ih =>
    show (runSchedule (stepAt s i) rest).2.length = _
    rw [ih, stepAt_length]

/-- A run keeps the invariant. -/
theorem ticketInv_run (sched : List Nat) (s : Logger × List Caller)
    (hlen : s.2.length < 2 ^ 64) (h : TicketInv s.1.seqid s.2) :
    TicketInv (runSchedule s sched).1.seqid (runSchedule s sched).2 := by
  induction sched generalizing s with
  | nil => exact h
  | cons i rest ih =>
    show TicketInv (runSchedule (stepAt s i) rest).1.seqid (runSchedule (stepAt s i) rest).2
    exact ih (stepAt s i) (by rw [stepAt_length]; exact hlen) (ticketInv_stepAt s i hlen h)

/-- Before any step the invariant holds for counter value 0. -/
theorem ticketInv_start (inputs : List (record × Time)) : TicketInv 0 (startCallers inputs) := by
  unfold TicketInv startCallers
  refine ⟨?_, ?_, ?_, ?_, ?_⟩
  · simp [List.countP_eq_zero]
  · intro c hc h1
    simp only [List.mem_map] at hc
    obtain ⟨p, _, rfl⟩ := hc
    simp at h1
  · rw [List.pairwise_map]
    exact List.pairwise_of_forall (fun a b h1 => by simp at h1)
  · intro c hc h2
    simp only [List.mem_map] at hc
    obtain ⟨p, _, rfl⟩ := hc
    simp at h2
  · intro c hc
    simp only [List.mem_map] at hc
    obtain ⟨p, _, rfl⟩ := hc
    simp

/-- Progress: a caller that is scheduled often enough completes its call. After
a run, the program counter of caller `i` is at least its old value plus the
number of times the schedule names `i`, up to 3. -/
theorem runSchedule_pc (sched : List Nat) (s : Logger × List Caller) (i : Nat) (c : Caller)
    (h : s.2[i]? = some c) :
    ∃ c1 : Caller, (runSchedule s sched).2[i]? = some c1 ∧
      min 3 (c.pc + sched.count i) ≤ c1.pc := by
  induction sched generalizing s c with
  | nil => exact ⟨c, h, by simp⟩
  | cons j rest ih =>
    show ∃ c1 : Caller, (runSchedule (stepAt s j) rest).2[i]? = some c1 ∧ _
    by_cases hji : j = i
    · subst hji
      have hlt : j < s.2.length := (List.getElem?_eq_some.mp h).1
      have hstep : (stepAt s j).2[j]? = some (stepCaller s.1 c).2 := by
        unfold stepAt
        simp only [h]
        rw [List.getElem?_set_self hlt]
      obtain ⟨c1, hc1, hle⟩ := ih (stepAt s j) (stepCaller s.1 c).2 hstep
      refine ⟨c1, hc1, ?_⟩
      rw [stepCaller_pc] at hle
      simp only [List.count_cons_self]
      split at hle <;> omega
    · have hstep : (stepAt s j).2[i]? = some c := by
        unfold stepAt
        cases hj : s.2[j]? with
        | none => exact h
        | some d =>
          simp only
          rw [List.getElem?_set_ne hji]
          exact h
      obtain ⟨c1, hc1, hle⟩ := ih (stepAt s j) c hstep
      refine ⟨c1, hc1, ?_⟩
      rw [List.count_cons_of_ne (Ne.symm hji)]
      exact hle

/-- C6: when N log calls run concurrently on one logger whose counter starts
at 0 (N below 2^64, as any number of records that exist together is), then
under every interleaving of the callers in which each caller takes the three
steps of its `genNonRuntime`, every call returns, and the seqid values stored
in the N records are exactly the integers 1..N: they are a permutation of
1, ..., N, with no duplicate and no gap, and the counter ends at N. -/
theorem concurrent_seqids_are_one_to_N (logger : Logger) (inputs : List (record × Time))
    (sched : List Nat) (h0 : logger.seqid = 0) (hN : inputs.length < 2 ^ 64)
    (hs : ∀ i : Nat, i < inputs.length → 3 ≤ sched.count i) :
    (∀ c ∈ (runSchedule (logger, startCallers inputs) sched).2, c.pc = 3) ∧
    (runSchedule (logger, startCallers inputs) sched).2.length = inputs.length ∧
    (((runSchedule (logger, startCallers inputs) sched).2.map (fun c => c.r.seqid)).Perm
      (List.range' 1 inputs.length)) ∧
    ((runSchedule (logger, startCallers inputs) sched).2.map (fun c => c.r.seqid)).Nodup ∧
    (∀ k : Nat, 1 ≤ k → k ≤ inputs.length →
      k ∈ (runSchedule (logger, startCallers inputs) sched).2.map (fun c => c.r.seqid)) ∧
    (runSchedule (logger, startCallers inputs) sched).1.seqid = inputs.length := by
  have hlen0 : (startCallers inputs).length = inputs.length := by simp [startCallers]
  have hlen : (runSchedule (logger, startCallers inputs) sched).2.length = inputs.length := by
    rw [runSchedule_length]
    exact hlen0
  have hinv := ticketInv_run sched (logger, startCallers inputs)
    (by rw [hlen0]; exact hN) (by rw [h0]; exact ticketInv_start inputs)
  have hprog : ∀ c ∈ (runSchedule (logger, startCallers inputs) sched).2, 3 ≤ c.pc := by
    intro c hc
    obtain ⟨n, hn⟩ := List.mem_iff_getElem?.mp hc
    have hlt : n < inputs.length := by
      rw [← hlen]
      exact (List.getElem?_eq_some.mp hn).1
    have hlt0 : n < (startCallers inputs).length := by
      rw [hlen0]
      exact hlt
    obtain ⟨c1, hc1, hle⟩ := runSchedule_pc sched (logger, startCallers inputs) n
      ((startCallers inputs).get ⟨n, hlt0⟩) (List.getElem?_eq_getElem hlt0)
    rw [hn] at hc1
    have hcc : c = c1 := Option.some.inj hc1
    have hcount := hs n hlt
    rw [hcc]
    omega
  generalize runSchedule (logger, startCallers inputs) sched = final at hlen hinv hprog ⊢
  obtain ⟨hcount, hrange, hpair, hseq, hpc⟩ := hinv
  have hdone : ∀ c ∈ final.2, c.pc = 3 := fun c hc =>
    Nat.le_antisymm (hpc c hc) (hprog c hc)
  have hk : final.1.seqid = inputs.length := by
    rw [← hcount, ← hlen, List.countP_eq_length]
    intro c hc
    have := hprog c hc
    simp only [decide_eq_true_eq]
    omega
  have hmap : final.2.map (fun c => c.r.seqid) = final.2.map (fun c => c.tmp) :=
    List.map_congr_left (fun c hc => hseq c hc (by have := hprog c hc; omega))
  have hnodup : (final.2.map (fun c => c.tmp)).Nodup := by
    unfold List.Nodup
    rw [List.pairwise_map]
    refine List.Pairwise.imp_of_mem ?_ hpair
    intro a b ha hb hab
    exact hab (by have := hprog a ha; omega) (by have := hprog b hb; omega)
  have hsub : final.2.map (fun c => c.tmp) ⊆ List.range' 1 inputs.length := by
    intro x hx
    obtain ⟨c, hc, rfl⟩ := List.mem_map.mp hx
    have := hrange c hc (by have := hprog c hc; omega)
    rw [List.mem_range'_1]
    omega
  have hperm : (final.2.map (fun c => c.tmp)).Perm (List.range' 1 inputs.length) :=
    (List.subperm_of_subset hnodup hsub).perm_of_length_le (by simp [hlen])
  refine ⟨hdone, hlen, ?_, ?_, ?_, hk⟩
  · rw [hmap]
    exact hperm
  · rw [hmap]
    exact hnodup
  · intro k hk1 hk2
    rw [hmap]
    apply hperm.symm.subset
    rw [List.mem_range'_1]
    omega

/-- C6 at a concrete input: three callers with the messages `a`, `b`, `c` on
the sample logger under an interleaved schedule; caller 2 receives 1, caller 0
receives 2 and caller 1 receives 3, each in its own record. -/
theorem concurrent_seqids_are_one_to_N_witness :
    sampleLogger.seqid = 0 ∧
    (∀ i : Nat, i < sampleInputs.length → 3 ≤ sampleSchedule.count i) ∧
    (runSchedule (sampleLogger, startCallers sampleInputs) sampleSchedule).2.map
      (fun c => (c.r.message, c.r.seqid)) = [("a", 2), ("b", 3), ("c", 1)] ∧
    (((runSchedule (sampleLogger, startCallers sampleInputs) sampleSchedule).2.map
      (fun c => c.r.seqid)).Perm (List.range' 1 sampleInputs.length)) :=
  ⟨rfl, by decide, by decide,
   (concurrent_seqids_are_one_to_N sampleLogger sampleInputs sampleSchedule rfl (by decide)
      (by decide)).2.2.1⟩

end Logging
